import Mathlib

/-!
Shallow embedding of the resumable command-execution engine of
`crates/bapi-dmm-reader/src/load/command_buffer.rs` (the bapi-dmm map
loader), together with theorems checking the natural-language
specification against it.

Modelling conventions:
* Rust `usize` values are `Nat`; `usize` subtraction is modelled with an
  explicit underflow check (Rust's checked / debug semantics, where
  arithmetic overflow is a program error rather than a silent wrap).
* Host (BYOND) primitives reached through `byondapi` are an oracle
  record `Host`; fallible host calls return `Except String _`.
  Purely-constructive byondapi operations (`ByondValue::new_num`,
  `new_list`, `push_list`, `write_list_index`, `ByondValue::null`) are
  modelled as total, matching the source comment that they only fail on
  internal BYOND errors.
* `HashMap`s are association lists; `Vec<Command>` used as a stack via
  `Vec::pop` is a `List Command` whose HEAD is the top of the stack.
* The drain loop additionally returns a trace of the commands it has
  executed and the number of tick-budget consultations it has made;
  this is observational instrumentation only and never feeds back into
  control flow.
-/

namespace BapiDmm

/-- Tile coordinates `(x, y, z)`, 1-based in the public space. -/
abbrev Coord := Nat × Nat × Nat

/-- Modelled from the spec: the `Literal` value union of the `dmm-lite`
crate (its definition is not part of the sources here, only its use in
`command_buffer.rs`): number, string, type path, file path, null,
fallback raw text, list, and associative list. -/
inductive Literal where
  | number (n : Float)
  | string (s : String)
  | path (p : String)
  | file (f : String)
  | null
  | fallback (s : String)
  | list (elems : List Literal)
  | assocList (pairs : List (Literal × Literal))

/-- Modelled from the spec and from the destructuring
`let (path_text, vars) = prefab` in `command_buffer.rs`: a type path
plus an optional ordered variable list. -/
abbrev Prefab := String × Option (List (String × Literal))

/-- A BYOND value as far as the embedded code can observe it: null,
number, string, a reference built by `ByondValue::new_ref`, or a list
whose entries are either plain pushes (`push_list`, key `none`) or
associative writes (`write_list_index`, key `some`). -/
inductive BValue where
  | null
  | num (n : Float)
  | str (s : String)
  | ref (id : Nat)
  | blist (entries : List (Option BValue × BValue))

/-- Embeds `ByondValue::is_null`. -/
def BValue.is_null : BValue → Bool
  | .null => true
  | _ => false

/-- Errors surfaced by the embedded engine (`eyre::Result` errors plus
the arithmetic-underflow panic case). -/
inductive DrainErr where
  | badIndex (id : Nat)
  | outOfRange (coord : Coord)
  | underflow (coord : Coord)
  | host (msg : String)
deriving DecidableEq

/-- Oracle record for every host primitive the engine consumes. -/
structure Host where
  worldBounds : Coord
  tickCheck : Nat → Bool
  createOrGetArea : String → Except String BValue
  text2path : String → Except String BValue
  text2file : String → Except String BValue
  newStr : String → Except String BValue
  areaContain : BValue → BValue → Except String Unit
  addTurfToArea : BValue → BValue → Except String Unit
  createTurf : BValue → String → BValue → Bool → Bool → Except String BValue
  setupPreloader : BValue → BValue → Except String Unit
  applyPreloader : BValue → Except String Unit
  builtinNew : BValue → BValue → Except String BValue

/-- The BYOND-side parsed-map object as seen through
`ParsedMapTranslationLayer`: its loading flag and its warning log. -/
structure ParsedMap where
  loading : Bool
  warnings : List String

/-- Embeds `ParsedMapTranslationLayer::add_warning`. -/
def ParsedMap.add_warning (pm : ParsedMap) (msg : String) : ParsedMap :=
  { pm with warnings := pm.warnings ++ [msg] }

/-- Embeds `ParsedMapTranslationLayer::set_loading`. -/
def ParsedMap.set_loading (pm : ParsedMap) (b : Bool) : ParsedMap :=
  { pm with loading := b }

/-- Association-list lookup, standing in for `HashMap` lookup. -/
def assocGet [DecidableEq α] : List (α × β) → α → Option β
  | [], _ => none
  | (k', v) :: rest, k => if k = k' then some v else assocGet rest k

/-- Association-list insert for a key known to be absent
(`HashMap::insert` on the miss path). -/
def assocInsert [DecidableEq α] (m : List (α × β)) (k : α) (v : β) : List (α × β) :=
  (k, v) :: m

/-- Association-list in-place update (mutation through a `get_mut`
borrow); appends when the key is absent. -/
def assocSet [DecidableEq α] : List (α × β) → α → β → List (α × β)
  | [], k, v => [(k, v)]
  | (k', v') :: rest, k, v =>
    if k = k' then (k, v) :: rest else (k', v') :: assocSet rest k v

/-- Association-list removal (`HashMap::remove`). -/
def assocRemove [DecidableEq α] : List (α × β) → α → List (α × β)
  | [], _ => []
  | (k', v') :: rest, k => if k = k' then rest else (k', v') :: assocRemove rest k

/-- Warning text for a null resolved coordinate (same for all three
command variants in the source). -/
def nullWarning (loc : Coord) : String :=
  "Unable to create atom at " ++ toString loc ++ " because coord was null"

/-- Warning text of the `Literal::Fallback` conversion branch. -/
def fallbackWarning (key s : String) : String :=
  "Parser failed to parse value for " ++ key ++ " and fellback to string: " ++ s

/-- Warning text of the list-element failure branch. -/
def listElemWarning (key e : String) : String :=
  "Inside list inside " ++ key ++ ", failed to parse value: " ++ e

/-- Warning text of the assoc-list key failure branch. -/
def assocKeyWarning (key e : String) : String :=
  "Inside assoc list inside " ++ key ++ ", failed to parse assoc list key: " ++ e

/-- Warning text of the assoc-list value failure branch. -/
def assocValWarning (key e : String) : String :=
  "Inside assoc list inside " ++ key ++ ", failed to parse assoc list value: " ++ e

/-- Embeds `extremely_unsafe_resolve_coord`: converts the 1-based
coordinate to a 0-based linear index and builds a turf reference,
failing when the converted coordinate is outside `world_size`. The
`usize` subtractions `coord.i - 1` are guarded by an explicit underflow
check (checked Rust semantics). -/
def resolve_coord_raw (coord : Coord) (world_size : Coord) : Except DrainErr BValue :=
  let max_x := world_size.1
  let max_y := world_size.2.1
  let max_z := world_size.2.2
  if coord.1 = 0 ∨ coord.2.1 = 0 ∨ coord.2.2 = 0 then
    .error (.underflow coord)
  else
    let x := coord.1 - 1
    let y := coord.2.1 - 1
    let z := coord.2.2 - 1
    if x < max_x ∧ y < max_y ∧ z < max_z then
      .ok (.ref (x + y * max_x + z * max_x * max_y))
    else
      .error (.outOfRange coord)

/-- Embeds `CachedTurfs`: the cached world bounds and the
coordinate-to-world-reference mapping. -/
structure CachedTurfs where
  world_bounds : Coord
  cached_turfs : List (Coord × BValue)

/-- Embeds `CachedTurfs::check_invalidate`: queries the host world
bounds and, when they differ from the cached ones, clears the mapping
and adopts the new bounds. -/
def CachedTurfs.check_invalidate (ct : CachedTurfs) (host : Host) : CachedTurfs :=
  if host.worldBounds ≠ ct.world_bounds then
    { world_bounds := host.worldBounds, cached_turfs := [] }
  else
    ct

/-- Embeds `CachedTurfs::resolve_coord`: cached hit, or a raw
resolution that is then cached. -/
def CachedTurfs.resolve_coord (ct : CachedTurfs) (coord : Coord) :
    Except DrainErr (BValue × CachedTurfs) :=
  match assocGet ct.cached_turfs coord with
  | some turf => .ok (turf, ct)
  | none =>
    match resolve_coord_raw coord ct.world_bounds with
    | .error e => .error e
    | .ok turf =>
      .ok (turf, { ct with cached_turfs := assocInsert ct.cached_turfs coord turf })

/-- Embeds the `Command` union of `command_buffer.rs`. -/
inductive Command where
  | createArea (loc : Coord) (prefab : Prefab) (new_z : Bool)
  | createTurf (loc : Coord) (prefab : Prefab) (no_changeturf : Bool) (place_on_top : Bool)
  | createAtom (loc : Coord) (prefab : Prefab)

/-- Embeds `CommandBuffer`. The `commands` list is the command stack
with its TOP at the head (the source stores a `Vec` and pops from the
back). -/
structure CommandBuffer where
  created_areas : List (String × BValue)
  known_types : List (String × BValue)
  cached_turfs : CachedTurfs
  commands : List Command

/-- Embeds the constant `MIN_PAUSE`, the batch threshold. -/
def MIN_PAUSE : Nat := 100

mutual

/-- Embeds `convert_literal_to_byondvalue`. Warnings go to the parsed
map, which is threaded through; failures of host conversions propagate
except inside list / assoc-list elements, which degrade per element. -/
def convert_literal_to_byondvalue (host : Host) (key : String) (pm : ParsedMap) :
    Literal → ParsedMap × Except String BValue
  | .number n => (pm, .ok (.num n))
  | .string s => (pm, host.newStr s)
  | .path p => (pm, host.text2path p)
  | .file f => (pm, host.text2file f)
  | .null => (pm, .ok .null)
  | .fallback s => (pm.add_warning (fallbackWarning key s), host.newStr s)
  | .list elems =>
    let r := convert_list_elems host key pm elems
    (r.1, .ok (.blist r.2))
  | .assocList pairs =>
    let r := convert_assoc_elems host key pm pairs
    (r.1, .ok (.blist r.2))

/-- Embeds the element loop of the `Literal::List` branch: a failing
element is warned about and omitted, the rest are still converted. -/
def convert_list_elems (host : Host) (key : String) (pm : ParsedMap) :
    List Literal → ParsedMap × List (Option BValue × BValue)
  | [] => (pm, [])
  | lit :: rest =>
    match convert_literal_to_byondvalue host key pm lit with
    | (pm₁, .ok v) =>
      let r := convert_list_elems host key pm₁ rest
      (r.1, (none, v) :: r.2)
    | (pm₁, .error e) =>
      convert_list_elems host key (pm₁.add_warning (listElemWarning key e)) rest

/-- Embeds the pair loop of the `Literal::AssocList` branch: both the
key and the value are converted (in that order, as in the source, so
both may emit nested warnings), and the pair is kept only when both
succeed; a failing key is reported before a failing value. -/
def convert_assoc_elems (host : Host) (key : String) (pm : ParsedMap) :
    List (Literal × Literal) → ParsedMap × List (Option BValue × BValue)
  | [] => (pm, [])
  | (lk, lv) :: rest =>
    let rk := convert_literal_to_byondvalue host key pm lk
    let rv := convert_literal_to_byondvalue host key rk.1 lv
    match rk.2, rv.2 with
    | .ok kv, .ok vv =>
      let r := convert_assoc_elems host key rv.1 rest
      (r.1, (some kv, vv) :: r.2)
    | .error e, _ =>
      convert_assoc_elems host key (rv.1.add_warning (assocKeyWarning key e)) rest
    | .ok _, .error e =>
      convert_assoc_elems host key (rv.1.add_warning (assocValWarning key e)) rest

end

/-- Embeds the entry loop of `convert_vars_list_to_byondlist`: converts
each variable's literal (propagating failure through `?`), then writes
it under its stringified name. -/
def convert_vars_entries (host : Host) (pm : ParsedMap)
    (acc : List (Option BValue × BValue)) :
    List (String × Literal) → ParsedMap × Except String (List (Option BValue × BValue))
  | [] => (pm, .ok acc)
  | (key, lit) :: rest =>
    match convert_literal_to_byondvalue host key pm lit with
    | (pm₁, .error e) => (pm₁, .error e)
    | (pm₁, .ok v) =>
      match host.newStr key with
      | .error e => (pm₁, .error e)
      | .ok kstr => convert_vars_entries host pm₁ (acc ++ [(some kstr, v)]) rest

/-- Embeds `convert_vars_list_to_byondlist`: `None` becomes BYOND null,
`Some vars` becomes a list of the converted entries. -/
def convert_vars_list_to_byondlist (host : Host) (pm : ParsedMap) :
    Option (List (String × Literal)) → ParsedMap × Except String BValue
  | none => (pm, .ok .null)
  | some vars =>
    match convert_vars_entries host pm [] vars with
    | (pm₁, .error e) => (pm₁, .error e)
    | (pm₁, .ok entries) => (pm₁, .ok (.blist entries))

/-- Embeds `create_turf`: materialize the variable list, then call the
host turf-instantiation primitive. -/
def create_turf (host : Host) (pm : ParsedMap) (turf : BValue) (prefab_turf : Prefab)
    (place_on_top no_changeturf : Bool) : ParsedMap × Except String BValue :=
  let r := convert_vars_list_to_byondlist host pm prefab_turf.2
  match r.2 with
  | .error e => (r.1, .error e)
  | .ok vars_list =>
    (r.1, host.createTurf turf prefab_turf.1 vars_list place_on_top no_changeturf)

/-- Embeds `create_movable`: resolve (and cache) the type path, stage
the preloader when variables are present, instantiate, apply. -/
def create_movable (host : Host) (pm : ParsedMap) (path_cache : List (String × BValue))
    (turf : BValue) (obj : Prefab) :
    ParsedMap × List (String × BValue) × Except String BValue :=
  let path_text := obj.1
  let pathRes : Except String (BValue × List (String × BValue)) :=
    match assocGet path_cache path_text with
    | some p => .ok (p, path_cache)
    | none =>
      match host.text2path path_text with
      | .error e => .error e
      | .ok p => .ok (p, assocInsert path_cache path_text p)
  match pathRes with
  | .error e => (pm, path_cache, .error e)
  | .ok (path, cache₁) =>
    match obj.2 with
    | some _ =>
      let rv := convert_vars_list_to_byondlist host pm obj.2
      match rv.2 with
      | .error e => (rv.1, cache₁, .error e)
      | .ok vars_list =>
        match host.setupPreloader vars_list path with
        | .error e => (rv.1, cache₁, .error e)
        | .ok _ =>
          match host.builtinNew path turf with
          | .error e => (rv.1, cache₁, .error e)
          | .ok inst =>
            match host.applyPreloader inst with
            | .error e => (rv.1, cache₁, .error e)
            | .ok _ => (rv.1, cache₁, .ok inst)
    | none =>
      match host.builtinNew path turf with
      | .error e => (pm, cache₁, .error e)
      | .ok inst =>
        match host.applyPreloader inst with
        | .error e => (pm, cache₁, .error e)
        | .ok _ => (pm, cache₁, .ok inst)

/-- The mutable state the command loop of
`_bapidmm_work_commandbuffer` threads: the parsed map (warnings), the
two append-only caches, and the coordinate cache. -/
structure BufState where
  pm : ParsedMap
  created_areas : List (String × BValue)
  known_types : List (String × BValue)
  cached_turfs : CachedTurfs

/-- Embeds one iteration body of the command loop: dispatch on the
popped command. Returns the updated state and either success (the loop
keeps going, also after a warned-and-skipped null coordinate) or the
error that aborts the whole drain. -/
def execCommand (host : Host) (st : BufState) : Command → BufState × Except DrainErr Unit
  | .createArea loc prefab new_z =>
    let areaRes : Except DrainErr (BValue × BufState) :=
      match assocGet st.created_areas prefab.1 with
      | some a => .ok (a, st)
      | none =>
        match host.createOrGetArea prefab.1 with
        | .error e => .error (.host e)
        | .ok a => .ok (a, { st with created_areas := assocInsert st.created_areas prefab.1 a })
    match areaRes with
    | .error e => (st, .error e)
    | .ok (area, st₁) =>
      match st₁.cached_turfs.resolve_coord loc with
      | .error e => (st₁, .error e)
      | .ok (turf, ct₁) =>
        let st₂ := { st₁ with cached_turfs := ct₁ }
        if turf.is_null then
          ({ st₂ with pm := st₂.pm.add_warning (nullWarning loc) }, .ok ())
        else
          match (if new_z then .ok () else host.areaContain turf area : Except String Unit) with
          | .error e => (st₂, .error (.host e))
          | .ok _ =>
            match host.addTurfToArea area turf with
            | .error e => (st₂, .error (.host e))
            | .ok _ => (st₂, .ok ())
  | .createTurf loc prefab no_changeturf place_on_top =>
    match st.cached_turfs.resolve_coord loc with
    | .error e => (st, .error e)
    | .ok (turf, ct₁) =>
      let st₁ := { st with cached_turfs := ct₁ }
      if turf.is_null then
        ({ st₁ with pm := st₁.pm.add_warning (nullWarning loc) }, .ok ())
      else
        let r := create_turf host st₁.pm turf prefab place_on_top no_changeturf
        let st₂ := { st₁ with pm := r.1 }
        match r.2 with
        | .error e => (st₂, .error (.host e))
        | .ok _ => (st₂, .ok ())
  | .createAtom loc prefab =>
    match st.cached_turfs.resolve_coord loc with
    | .error e => (st, .error e)
    | .ok (turf, ct₁) =>
      let st₁ := { st with cached_turfs := ct₁ }
      if turf.is_null then
        ({ st₁ with pm := st₁.pm.add_warning (nullWarning loc) }, .ok ())
      else
        let r := create_movable host st₁.pm st₁.known_types turf prefab
        let st₂ := { st₁ with pm := r.1, known_types := r.2.1 }
        match r.2.2 with
        | .error e => (st₂, .error (.host e))
        | .ok _ => (st₂, .ok ())

/-- How a command-loop run ended: stack drained, yielded on an
exhausted tick budget, or aborted by an error. -/
inductive LoopOutcome where
  | finished
  | yielded
  | failed (e : DrainErr)
deriving DecidableEq

/-- Result of a command-loop run: final state, the commands still on
the stack, the trace of executed commands (observational), the number
of tick consultations made (observational), and the outcome. -/
structure LoopResult where
  st : BufState
  remaining : List Command
  trace : List Command
  ticks : Nat
  outcome : LoopOutcome

/-- Embeds the `while let Some(command) = ... pop()` loop of
`_bapidmm_work_commandbuffer`: execute popped commands one at a time;
after every execution bump `minimum_pause_counter` and, when it is a
multiple of `MIN_PAUSE`, consult the host tick budget, yielding
immediately when it reports exhaustion. -/
def runCommands (host : Host) :
    BufState → Nat → Nat → List Command → List Command → LoopResult
  | st, _, ticks, trace, [] => ⟨st, [], trace, ticks, .finished⟩
  | st, counter, ticks, trace, c :: rest =>
    match execCommand host st c with
    | (st₁, .error e) => ⟨st₁, rest, trace ++ [c], ticks, .failed e⟩
    | (st₁, .ok _) =>
      let counter₁ := counter + 1
      if counter₁ % MIN_PAUSE = 0 then
        if host.tickCheck ticks then
          ⟨st₁, rest, trace ++ [c], ticks + 1, .yielded⟩
        else
          runCommands host st₁ counter₁ (ticks + 1) (trace ++ [c]) rest
      else
        runCommands host st₁ counter₁ ticks (trace ++ [c]) rest

/-- The per-map internal data reachable from `PARSED_MAPS`: its
registry of resumable command buffers keyed by resume key. -/
structure InternalData where
  command_buffers : List (Nat × CommandBuffer)

/-- Result of one drain invocation: the returned value (`1` = more
work pending, `0` = done, or the propagated error), the parsed map,
the updated `PARSED_MAPS`, and the trace of executed commands. -/
structure WorkResult where
  result : Except DrainErr Nat
  pm : ParsedMap
  maps : List InternalData
  trace : List Command

/-- Embeds `_bapidmm_work_commandbuffer`: look up the parsed map by
internal index, look up the resumable buffer by resume key, run
`check_invalidate`, drain the command stack, remove the buffer when
the loop finished with an empty stack, and set the loading flag to
false on the paths that return `0`. -/
def bapidmm_work_commandbuffer (host : Host) (maps : List InternalData) (pm : ParsedMap)
    (id resume_key : Nat) : WorkResult :=
  match maps.get? id with
  | none => ⟨.error (.badIndex id), pm, maps, []⟩
  | some internal =>
    match assocGet internal.command_buffers resume_key with
    | none => ⟨.ok 0, pm.set_loading false, maps, []⟩
    | some buf =>
      let ct := buf.cached_turfs.check_invalidate host
      let lr := runCommands host ⟨pm, buf.created_areas, buf.known_types, ct⟩ 0 0 [] buf.commands
      match lr.outcome with
      | .yielded =>
        let buf₁ : CommandBuffer :=
          ⟨lr.st.created_areas, lr.st.known_types, lr.st.cached_turfs, lr.remaining⟩
        ⟨.ok 1, lr.st.pm,
          maps.set id ⟨assocSet internal.command_buffers resume_key buf₁⟩, lr.trace⟩
      | .failed e =>
        let buf₁ : CommandBuffer :=
          ⟨lr.st.created_areas, lr.st.known_types, lr.st.cached_turfs, lr.remaining⟩
        ⟨.error e, lr.st.pm,
          maps.set id ⟨assocSet internal.command_buffers resume_key buf₁⟩, lr.trace⟩
      | .finished =>
        let registry₁ :=
          if lr.remaining.isEmpty then
            assocRemove internal.command_buffers resume_key
          else
            assocSet internal.command_buffers resume_key
              ⟨lr.st.created_areas, lr.st.known_types, lr.st.cached_turfs, lr.remaining⟩
        ⟨.ok 0, lr.st.pm.set_loading false, maps.set id ⟨registry₁⟩, lr.trace⟩

/-- Accumulated observation of several successive drain invocations on
the same session and resume key. -/
structure DrainsResult where
  results : List (Except DrainErr Nat)
  trace : List Command
  maps : List InternalData
  pm : ParsedMap

/-- Runs `n` successive drain invocations, collecting each invocation's
returned value and concatenating the execution traces. -/
def runDrains (host : Host) (maps : List InternalData) (pm : ParsedMap)
    (id rkey : Nat) : Nat → DrainsResult
  | 0 => ⟨[], [], maps, pm⟩
  | n + 1 =>
    let w := bapidmm_work_commandbuffer host maps pm id rkey
    let d := runDrains host w.maps w.pm id rkey n
    ⟨w.result :: d.results, w.trace ++ d.trace, d.maps, d.pm⟩

/-! Concrete scenarios used by witnesses and counterexamples. -/

/-- Recognizes `CreateTurf` commands targeting `(1,1,1)`: with `(1,1,1)`
cached as a null reference these are exactly the commands the engine
warns about and skips, whatever their prefab and flags. -/
def skipShape : Command → Bool
  | .createTurf loc _ _ _ => decide (loc = ((1, 1, 1) : Coord))
  | _ => false

/-- Host oracle whose tick budget is always exhausted and whose other
primitives all succeed trivially. -/
def tiredHost : Host where
  worldBounds := (1, 1, 1)
  tickCheck := fun _ => true
  createOrGetArea := fun _ => .ok .null
  text2path := fun _ => .ok .null
  text2file := fun _ => .ok .null
  newStr := fun s => .ok (.str s)
  areaContain := fun _ _ => .ok ()
  addTurfToArea := fun _ _ => .ok ()
  createTurf := fun _ _ _ _ _ => .ok .null
  setupPreloader := fun _ _ => .ok ()
  applyPreloader := fun _ => .ok ()
  builtinNew := fun _ _ => .ok .null

/-- Like `tiredHost` but with a never-exhausted tick budget. -/
def restedHost : Host :=
  { tiredHost with tickCheck := fun _ => false }

/-- Like `tiredHost` but failing to resolve the type path `/bad`. -/
def flakyHost : Host :=
  { tiredHost with
    text2path := fun p => if p = "/bad" then .error "cannot resolve path" else .ok .null }

/-- A command buffer whose coordinate cache maps `(1,1,1)` to a null
reference at the same bounds `tiredHost` reports. -/
def tiredBuf (cs : List Command) : CommandBuffer :=
  ⟨[], [], ⟨(1, 1, 1), [(((1, 1, 1) : Coord), BValue.null)]⟩, cs⟩

/-- A session registry holding only `tiredBuf cs` at index 0, resume
key 0. -/
def tiredMaps (cs : List Command) : List InternalData :=
  [⟨[(0, tiredBuf cs)]⟩]

/-- A parsed map that is loading and has no warnings yet. -/
def pm0 : ParsedMap := ⟨true, []⟩

/-- The invariant driving the skip scenarios: `(1,1,1)` is cached as a
null reference. -/
def nullCachedAt : BufState → Prop :=
  fun st => assocGet st.cached_turfs.cached_turfs (1, 1, 1) = some BValue.null

/-- A command that is warned about and skipped under `nullCachedAt`. -/
def skipCmd : Command := .createTurf (1, 1, 1) ("/turf/open/space", none) false false

/-- Loop state matching `tiredBuf []` right after `check_invalidate`. -/
def nullSt : BufState :=
  ⟨pm0, [], [], ⟨(1, 1, 1), [(((1, 1, 1) : Coord), BValue.null)]⟩⟩

/-- One hundred skip commands: a stack whose length is exactly the
batch threshold. -/
def cxCmds : List Command := List.replicate 100 skipCmd

/-- One hundred and fifty skip commands. -/
def wCmds : List Command := List.replicate 150 skipCmd

/-- A buffer whose single command targets a coordinate outside the
cached world bounds. -/
def oorBuf : CommandBuffer :=
  ⟨[], [], ⟨(1, 1, 1), []⟩, [.createTurf (5, 1, 1) ("/turf/open/space", none) false false]⟩

/-- A session registry holding only `oorBuf` at index 0, resume key 0. -/
def oorMaps : List InternalData := [⟨[(0, oorBuf)]⟩]

end BapiDmm

namespace BapiDmm

/-! Theorems. -/

/-- C6: coordinate resolution converts the 1-based coordinate `(x,y,z)`
to the 0-based linear index `(x-1) + (y-1)*max_x + (z-1)*max_x*max_y`
(x fastest, then y, then z) before constructing the host reference. -/
theorem claim6_linearization (x y z mx my mz : Nat)
    (hx : 1 ≤ x) (hy : 1 ≤ y) (hz : 1 ≤ z)
    (hbx : x - 1 < mx) (hby : y - 1 < my) (hbz : z - 1 < mz) :
    resolve_coord_raw (x, y, z) (mx, my, mz)
      = .ok (.ref ((x - 1) + (y - 1) * mx + (z - 1) * mx * my)) := by
  unfold resolve_coord_raw
  dsimp only
  rw [if_neg (by omega), if_pos ⟨hbx, hby, hbz⟩]

/-- Witness for C6 at the concrete coordinate (2,3,1) in a 5 by 5 by 5
world: the linear index is 1 + 2*5 + 0*25 = 11. -/
theorem claim6_linearization_witness :
    resolve_coord_raw (2, 3, 1) (5, 5, 5) = .ok (.ref 11) := by
  have h := claim6_linearization 2 3 1 5 5 5 (by decide) (by decide) (by decide)
    (by decide) (by decide) (by decide)
  simpa using h

/-- C9: the 1-based to 0-based conversion subtracts 1 from each
component before the range guard runs, so a zero component underflows
(is never reported as the out-of-range error), while under the
precondition that every component is at least 1 resolution is total:
it returns a reference or the out-of-range error. -/
theorem claim9_underflow_guard (coord bounds : Coord) :
    ((coord.1 = 0 ∨ coord.2.1 = 0 ∨ coord.2.2 = 0) →
      resolve_coord_raw coord bounds = .error (.underflow coord)
      ∧ ∀ c, resolve_coord_raw coord bounds ≠ .error (.outOfRange c))
    ∧ (1 ≤ coord.1 → 1 ≤ coord.2.1 → 1 ≤ coord.2.2 →
      resolve_coord_raw coord bounds
          = .ok (.ref ((coord.1 - 1) + (coord.2.1 - 1) * bounds.1
              + (coord.2.2 - 1) * bounds.1 * bounds.2.1))
        ∨ resolve_coord_raw coord bounds = .error (.outOfRange coord)) := by
  constructor
  · intro h0
    have hres : resolve_coord_raw coord bounds = .error (.underflow coord) := by
      unfold resolve_coord_raw
      rw [if_pos h0]
    exact ⟨hres, fun c => by simp [hres]⟩
  · intro hx hy hz
    unfold resolve_coord_raw
    rw [if_neg (by omega)]
    by_cases hin : coord.1 - 1 < bounds.1 ∧ coord.2.1 - 1 < bounds.2.1
        ∧ coord.2.2 - 1 < bounds.2.2
    · left; rw [if_pos hin]
    · right; rw [if_neg hin]

/-- Witness for C9: the coordinate (0,1,1) underflows (and in
particular is not reported out-of-range) in a 5 by 5 by 5 world. -/
theorem claim9_underflow_guard_witness :
    resolve_coord_raw (0, 1, 1) (5, 5, 5) = .error (.underflow (0, 1, 1)) :=
  ((claim9_underflow_guard (0, 1, 1) (5, 5, 5)).1 (by decide)).1

/-- C7 (amended): a drain whose session id has no parsed map fails
immediately with the bad-internal-index error; but a drain whose
resume key has no resident buffer does NOT fail: it sets the loading
flag to false and reports done (0). -/
theorem claim7_unknown_session (host : Host) (maps : List InternalData)
    (pm : ParsedMap) (id rkey : Nat) :
    (maps.get? id = none →
      bapidmm_work_commandbuffer host maps pm id rkey
        = ⟨.error (.badIndex id), pm, maps, []⟩)
    ∧ (∀ internal, maps.get? id = some internal →
      assocGet internal.command_buffers rkey = none →
      bapidmm_work_commandbuffer host maps pm id rkey
        = ⟨.ok 0, pm.set_loading false, maps, []⟩) := by
  constructor
  · intro h
    simp only [bapidmm_work_commandbuffer, h]
  · intro internal h1 h2
    simp only [bapidmm_work_commandbuffer, h1, h2]

/-- Counterexample for C7 as stated: a drain for resume key 3, which
has no resident command buffer in the (existing) session at index 0,
reports done (0) with the loading flag cleared instead of failing with
an identifiable error. -/
theorem claim7_unknown_session_cx :
    bapidmm_work_commandbuffer tiredHost [⟨[]⟩] pm0 0 3
      = ⟨.ok 0, ⟨false, []⟩, [⟨[]⟩], []⟩ := rfl

/-- Witness for C7 (amended), both branches at concrete inputs: an
unknown session id 5 errors; a known session with unknown resume key 3
reports done. -/
theorem claim7_unknown_session_witness :
    bapidmm_work_commandbuffer tiredHost [⟨[]⟩] pm0 5 0
        = ⟨.error (.badIndex 5), pm0, [⟨[]⟩], []⟩
    ∧ bapidmm_work_commandbuffer tiredHost [⟨[]⟩] pm0 0 3
        = ⟨.ok 0, pm0.set_loading false, [⟨[]⟩], []⟩ :=
  ⟨(claim7_unknown_session tiredHost [⟨[]⟩] pm0 5 0).1 rfl,
   (claim7_unknown_session tiredHost [⟨[]⟩] pm0 0 3).2 ⟨[]⟩ rfl rfl⟩

/-- C5: for every command variant, when the world reference resolved
for the command's location is null, the drain records a warning and
skips only that command — execution succeeds with just the warning
appended — and the loop then continues with the remaining commands
instead of failing the drain. -/
theorem claim5_null_skip (host : Host) (st : BufState) (loc : Coord) (v : BValue)
    (hcache : assocGet st.cached_turfs.cached_turfs loc = some v)
    (hnull : v.is_null = true) :
    (∀ pf ncf pot, execCommand host st (.createTurf loc pf ncf pot)
        = ({ st with pm := st.pm.add_warning (nullWarning loc) }, .ok ()))
    ∧ (∀ pf, execCommand host st (.createAtom loc pf)
        = ({ st with pm := st.pm.add_warning (nullWarning loc) }, .ok ()))
    ∧ (∀ pf nz a, assocGet st.created_areas pf.1 = some a →
        execCommand host st (.createArea loc pf nz)
          = ({ st with pm := st.pm.add_warning (nullWarning loc) }, .ok ()))
    ∧ (∀ c rest counter ticks trace, (execCommand host st c).2 = .ok () →
        runCommands host st counter ticks trace (c :: rest)
          = if (counter + 1) % MIN_PAUSE = 0 then
              (if host.tickCheck ticks then
                ⟨(execCommand host st c).1, rest, trace ++ [c], ticks + 1, .yielded⟩
              else
                runCommands host (execCommand host st c).1 (counter + 1) (ticks + 1)
                  (trace ++ [c]) rest)
            else
              runCommands host (execCommand host st c).1 (counter + 1) ticks
                (trace ++ [c]) rest) := by
  refine ⟨?_, ?_, ?_, ?_⟩
  · intro pf ncf pot
    simp [execCommand, CachedTurfs.resolve_coord, hcache, hnull]
  · intro pf
    simp [execCommand, CachedTurfs.resolve_coord, hcache, hnull]
  · intro pf nz a harea
    simp [execCommand, CachedTurfs.resolve_coord, hcache, hnull, harea]
  · intro c rest counter ticks trace hok
    rcases hE : execCommand host st c with ⟨st₁, r⟩
    rw [hE] at hok
    subst hok
    simp only [runCommands, hE]

/-- Witness for C5 at a concrete state whose cache maps (1,1,1) to a
null reference: the CreateTurf command is skipped with only the
warning recorded. -/
theorem claim5_null_skip_witness :
    execCommand tiredHost nullSt skipCmd
      = ({ nullSt with pm := pm0.add_warning (nullWarning (1, 1, 1)) }, .ok ()) :=
  (claim5_null_skip tiredHost nullSt (1, 1, 1) BValue.null rfl rfl).1
    ("/turf/open/space", none) false false

/-- C4: an out-of-range coordinate is fatal to the whole drain: raw
resolution reports it, the cache propagates it on a miss, command
execution propagates it, the command loop stops at the failing command
leaving the rest unexecuted, and the drain invocation returns the
error to the caller. -/
theorem claim4_out_of_range_fatal :
    (∀ (coord bounds : Coord), 1 ≤ coord.1 → 1 ≤ coord.2.1 → 1 ≤ coord.2.2 →
      ¬(coord.1 - 1 < bounds.1 ∧ coord.2.1 - 1 < bounds.2.1
          ∧ coord.2.2 - 1 < bounds.2.2) →
      resolve_coord_raw coord bounds = .error (.outOfRange coord))
    ∧ (∀ (ct : CachedTurfs) (coord : Coord) (e : DrainErr),
      assocGet ct.cached_turfs coord = none →
      resolve_coord_raw coord ct.world_bounds = .error e →
      ct.resolve_coord coord = .error e)
    ∧ (∀ (host : Host) (st : BufState) (loc : Coord) (pf : Prefab) (ncf pot : Bool)
        (e : DrainErr),
      assocGet st.cached_turfs.cached_turfs loc = none →
      resolve_coord_raw loc st.cached_turfs.world_bounds = .error e →
      execCommand host st (.createTurf loc pf ncf pot) = (st, .error e))
    ∧ (∀ (host : Host) (st : BufState) (c : Command) (e : DrainErr) rest counter ticks trace,
      (execCommand host st c).2 = .error e →
      runCommands host st counter ticks trace (c :: rest)
        = ⟨(execCommand host st c).1, rest, trace ++ [c], ticks, .failed e⟩)
    ∧ (∀ (host : Host) maps pm id rkey internal buf (e : DrainErr),
      maps.get? id = some internal →
      assocGet internal.command_buffers rkey = some buf →
      (runCommands host ⟨pm, buf.created_areas, buf.known_types,
          buf.cached_turfs.check_invalidate host⟩ 0 0 [] buf.commands).outcome
        = .failed e →
      (bapidmm_work_commandbuffer host maps pm id rkey).result = .error e) := by
  refine ⟨?_, ?_, ?_, ?_, ?_⟩
  · intro coord bounds hx hy hz hout
    unfold resolve_coord_raw
    dsimp only
    rw [if_neg (by omega), if_neg hout]
  · intro ct coord e hmiss herr
    simp [CachedTurfs.resolve_coord, hmiss, herr]
  · intro host st loc pf ncf pot e hmiss herr
    simp [execCommand, CachedTurfs.resolve_coord, hmiss, herr]
  · intro host st c e rest counter ticks trace herr
    rcases hE : execCommand host st c with ⟨st₁, r⟩
    rw [hE] at herr
    subst herr
    simp only [runCommands, hE]
  · intro host maps pm id rkey internal buf e h1 h2 houtcome
    simp only [bapidmm_work_commandbuffer, h1, h2]
    rw [houtcome]

/-- Witness for C4 on a one-command buffer targeting (5,1,1) in a
1 by 1 by 1 world: the whole drain invocation returns the out-of-range
error. -/
theorem claim4_out_of_range_fatal_witness :
    (bapidmm_work_commandbuffer tiredHost oorMaps pm0 0 0).result
      = .error (.outOfRange (5, 1, 1)) :=
  claim4_out_of_range_fatal.2.2.2.2 tiredHost oorMaps pm0 0 0 ⟨[(0, oorBuf)]⟩ oorBuf
    (.outOfRange (5, 1, 1)) rfl rfl rfl

/-- Updating the same index twice keeps only the second update. -/
theorem list_set_set (l : List α) (i : Nat) (a b : α) :
    (l.set i a).set i b = l.set i b := by
  induction l generalizing i with
  | nil => rfl
  | cons x xs ih =>
    cases i with
    | zero => rfl
    | succ n => simp [List.set, ih n]

/-- Reading back an index that was just set. -/
theorem list_get_set (l : List α) (i : Nat) (a : α) (h : i < l.length) :
    (l.set i a).get? i = some a := by
  induction l generalizing i with
  | nil => simp at h
  | cons x xs ih =>
    cases i with
    | zero => rfl
    | succ n => simpa [List.set] using ih n (by simpa using h)

/-- A successful lookup bounds the index. -/
theorem list_get_lt (l : List α) (i : Nat) (a : α) (h : l.get? i = some a) :
    i < l.length := by
  induction l generalizing i with
  | nil => simp at h
  | cons x xs ih =>
    cases i with
    | zero => simp
    | succ n =>
      have := ih n (by simpa using h)
      simpa using Nat.succ_lt_succ this

/-- Looking up the key that was just set. -/
theorem assocGet_assocSet [DecidableEq α] (m : List (α × β)) (k : α) (v : β) :
    assocGet (assocSet m k v) k = some v := by
  induction m with
  | nil => simp [assocSet, assocGet]
  | cons p rest ih =>
    rcases p with ⟨k₁, v₁⟩
    by_cases h : k = k₁
    · simp [assocSet, assocGet, h]
    · simp [assocSet, assocGet, h, ih]

/-- Setting the same key twice keeps only the second value. -/
theorem assocSet_assocSet [DecidableEq α] (m : List (α × β)) (k : α) (v w : β) :
    assocSet (assocSet m k v) k w = assocSet m k w := by
  induction m with
  | nil => simp [assocSet]
  | cons p rest ih =>
    rcases p with ⟨k₁, v₁⟩
    by_cases h : k = k₁
    · simp [assocSet, h]
    · simp [assocSet, h, ih]

/-- Removing a present key after overwriting it is the same as
removing it directly. -/
theorem assocRemove_assocSet [DecidableEq α] (m : List (α × β)) (k : α) (v w : β)
    (h : assocGet m k = some w) :
    assocRemove (assocSet m k v) k = assocRemove m k := by
  induction m with
  | nil => simp [assocGet] at h
  | cons p rest ih =>
    rcases p with ⟨k₁, v₁⟩
    by_cases hk : k = k₁
    · simp [assocSet, assocRemove, hk]
    · rw [assocGet, if_neg hk] at h
      simp [assocSet, assocRemove, hk, ih h]

/-- Running the invalidation check twice against the same host changes
nothing beyond running it once. -/
theorem check_invalidate_idem (ct : CachedTurfs) (host : Host) :
    (ct.check_invalidate host).check_invalidate host = ct.check_invalidate host := by
  by_cases h : host.worldBounds = ct.world_bounds
  · simp [CachedTurfs.check_invalidate, h]
  · simp [CachedTurfs.check_invalidate, h]

/-- C2: the invalidation check adopts changed host bounds and discards
the whole mapping (so any later resolution is a fresh raw resolution,
never a stale cached reference), leaves the cache untouched when the
bounds are unchanged, is idempotent, and runs at the start of every
drain: pre-invalidating a resident buffer's cache does not change the
drain invocation at all. -/
theorem claim2_cache_invalidation (host : Host) :
    (∀ ct : CachedTurfs, host.worldBounds ≠ ct.world_bounds →
      ct.check_invalidate host = ⟨host.worldBounds, []⟩
      ∧ (∀ coord, assocGet (ct.check_invalidate host).cached_turfs coord = none)
      ∧ (∀ coord, (ct.check_invalidate host).resolve_coord coord
          = (resolve_coord_raw coord host.worldBounds).map
              (fun t => (t, ⟨host.worldBounds, [(coord, t)]⟩))))
    ∧ (∀ ct : CachedTurfs, host.worldBounds = ct.world_bounds →
      ct.check_invalidate host = ct)
    ∧ (∀ ct : CachedTurfs,
      (ct.check_invalidate host).check_invalidate host = ct.check_invalidate host)
    ∧ (∀ maps pm id rkey internal buf,
      maps.get? id = some internal →
      assocGet internal.command_buffers rkey = some buf →
      bapidmm_work_commandbuffer host maps pm id rkey
        = bapidmm_work_commandbuffer host
            (maps.set id ⟨assocSet internal.command_buffers rkey
              { buf with cached_turfs := buf.cached_turfs.check_invalidate host }⟩)
            pm id rkey) := by
  refine ⟨?_, ?_, ?_, ?_⟩
  · intro ct hne
    have hclr : ct.check_invalidate host = ⟨host.worldBounds, []⟩ := by
      simp [CachedTurfs.check_invalidate, hne]
    refine ⟨hclr, ?_, ?_⟩
    · intro coord
      rw [hclr]
      rfl
    · intro coord
      rw [hclr]
      cases hr : resolve_coord_raw coord host.worldBounds with
      | error e => simp [CachedTurfs.resolve_coord, assocGet, hr, Except.map]
      | ok t => simp [CachedTurfs.resolve_coord, assocGet, hr, assocInsert, Except.map]
  · intro ct heq
    simp [CachedTurfs.check_invalidate, heq]
  · intro ct
    exact check_invalidate_idem ct host
  · intro maps pm id rkey internal buf h1 h2
    have hlt : id < maps.length := list_get_lt maps id internal h1
    have hidem := check_invalidate_idem buf.cached_turfs host
    have hrhs := list_get_set maps id
      (⟨assocSet internal.command_buffers rkey
        { buf with cached_turfs := buf.cached_turfs.check_invalidate host }⟩ : InternalData)
      hlt
    simp only [bapidmm_work_commandbuffer, h1, h2, hrhs, assocGet_assocSet, hidem]
    cases houtcome : (runCommands host
        ⟨pm, buf.created_areas, buf.known_types,
          buf.cached_turfs.check_invalidate host⟩ 0 0 [] buf.commands).outcome with
    | finished =>
      simp only [houtcome, list_set_set]
      congr 1
      by_cases hemp : (runCommands host
          ⟨pm, buf.created_areas, buf.known_types,
            buf.cached_turfs.check_invalidate host⟩ 0 0 [] buf.commands).remaining.isEmpty
      · simp [hemp, assocRemove_assocSet _ _ _ _ h2]
      · simp [hemp, assocSet_assocSet]
    | yielded => simp only [houtcome, list_set_set, assocSet_assocSet]
    | failed e => simp only [houtcome, list_set_set, assocSet_assocSet]

/-- Witness for C2: invalidating a one-entry cache cached at bounds
(2,2,2) against a host now reporting (1,1,1) clears the mapping and
adopts the new bounds. -/
theorem claim2_cache_invalidation_witness :
    CachedTurfs.check_invalidate ⟨(2, 2, 2), [(((1, 1, 1) : Coord), BValue.ref 0)]⟩ tiredHost
      = ⟨(1, 1, 1), []⟩ :=
  ((claim2_cache_invalidation tiredHost).1
    ⟨(2, 2, 2), [(((1, 1, 1) : Coord), BValue.ref 0)]⟩ (by decide)).1

mutual

/-- Literal conversion only appends to the warning log: the resulting
parsed map keeps the loading flag and extends the warnings. -/
theorem convert_literal_pm (host : Host) (key : String) :
    (lit : Literal) → ∀ pm : ParsedMap, ∃ ws,
      (convert_literal_to_byondvalue host key pm lit).1 = ⟨pm.loading, pm.warnings ++ ws⟩
  | .number _, pm => ⟨[], by simp [convert_literal_to_byondvalue]⟩
  | .string _, pm => ⟨[], by simp [convert_literal_to_byondvalue]⟩
  | .path _, pm => ⟨[], by simp [convert_literal_to_byondvalue]⟩
  | .file _, pm => ⟨[], by simp [convert_literal_to_byondvalue]⟩
  | .null, pm => ⟨[], by simp [convert_literal_to_byondvalue]⟩
  | .fallback s, pm => ⟨[fallbackWarning key s], rfl⟩
  | .list elems, pm => by
    simp only [convert_literal_to_byondvalue]
    exact convert_list_elems_pm host key elems pm
  | .assocList pairs, pm => by
    simp only [convert_literal_to_byondvalue]
    exact convert_assoc_elems_pm host key pairs pm

/-- List-element conversion only appends to the warning log. -/
theorem convert_list_elems_pm (host : Host) (key : String) :
    (l : List Literal) → ∀ pm : ParsedMap, ∃ ws,
      (convert_list_elems host key pm l).1 = ⟨pm.loading, pm.warnings ++ ws⟩
  | [], pm => ⟨[], by simp [convert_list_elems]⟩
  | lit :: rest, pm => by
    rcases hE : convert_literal_to_byondvalue host key pm lit with ⟨pm₁, r⟩
    have hpm₁ : ∃ ws, pm₁ = ⟨pm.loading, pm.warnings ++ ws⟩ := by
      have := convert_literal_pm host key lit pm
      rwa [hE] at this
    rcases hpm₁ with ⟨ws₁, hws₁⟩
    cases r with
    | ok v =>
      rcases convert_list_elems_pm host key rest pm₁ with ⟨ws₂, hws₂⟩
      refine ⟨ws₁ ++ ws₂, ?_⟩
      simp only [convert_list_elems, hE]
      rw [hws₂, hws₁]
      simp
    | error e =>
      rcases convert_list_elems_pm host key rest
          (pm₁.add_warning (listElemWarning key e)) with ⟨ws₂, hws₂⟩
      refine ⟨ws₁ ++ [listElemWarning key e] ++ ws₂, ?_⟩
      simp only [convert_list_elems, hE]
      rw [hws₂, hws₁]
      simp [ParsedMap.add_warning]

/-- Assoc-pair conversion only appends to the warning log. -/
theorem convert_assoc_elems_pm (host : Host) (key : String) :
    (l : List (Literal × Literal)) → ∀ pm : ParsedMap, ∃ ws,
      (convert_assoc_elems host key pm l).1 = ⟨pm.loading, pm.warnings ++ ws⟩
  | [], pm => ⟨[], by simp [convert_assoc_elems]⟩
  | (lk, lv) :: rest, pm => by
    rcases hEk : convert_literal_to_byondvalue host key pm lk with ⟨pmk, rk⟩
    have hpmk : ∃ ws, pmk = ⟨pm.loading, pm.warnings ++ ws⟩ := by
      have := convert_literal_pm host key lk pm
      rwa [hEk] at this
    rcases hpmk with ⟨wsk, hwsk⟩
    rcases hEv : convert_literal_to_byondvalue host key pmk lv with ⟨pmv, rv⟩
    have hpmv : ∃ ws, pmv = ⟨pmk.loading, pmk.warnings ++ ws⟩ := by
      have := convert_literal_pm host key lv pmk
      rwa [hEv] at this
    rcases hpmv with ⟨wsv, hwsv⟩
    cases rk with
    | ok kv =>
      cases rv with
      | ok vv =>
        rcases convert_assoc_elems_pm host key rest pmv with ⟨ws₂, hws₂⟩
        refine ⟨wsk ++ wsv ++ ws₂, ?_⟩
        simp only [convert_assoc_elems, hEk, hEv]
        rw [hws₂, hwsv, hwsk]
        simp
      | error e =>
        rcases convert_assoc_elems_pm host key rest
            (pmv.add_warning (assocValWarning key e)) with ⟨ws₂, hws₂⟩
        refine ⟨wsk ++ wsv ++ [assocValWarning key e] ++ ws₂, ?_⟩
        simp only [convert_assoc_elems, hEk, hEv]
        rw [hws₂]
        simp [ParsedMap.add_warning, hwsv, hwsk]
    | error e =>
      rcases convert_assoc_elems_pm host key rest
          (pmv.add_warning (assocKeyWarning key e)) with ⟨ws₂, hws₂⟩
      refine ⟨wsk ++ wsv ++ [assocKeyWarning key e] ++ ws₂, ?_⟩
      simp only [convert_assoc_elems, hEk, hEv]
      rw [hws₂]
      simp [ParsedMap.add_warning, hwsv, hwsk]

end

mutual

/-- The converted value of a literal does not depend on the incoming
parsed map (which only collects warnings). -/
theorem convert_literal_result (host : Host) (key : String) :
    (lit : Literal) → ∀ pm₁ pm₂ : ParsedMap,
      (convert_literal_to_byondvalue host key pm₁ lit).2
        = (convert_literal_to_byondvalue host key pm₂ lit).2
  | .number _, _, _ => rfl
  | .string _, _, _ => rfl
  | .path _, _, _ => rfl
  | .file _, _, _ => rfl
  | .null, _, _ => rfl
  | .fallback _, _, _ => rfl
  | .list elems, pm₁, pm₂ => by
    simp only [convert_literal_to_byondvalue]
    rw [convert_list_elems_result host key elems pm₁ pm₂]
  | .assocList pairs, pm₁, pm₂ => by
    simp only [convert_literal_to_byondvalue]
    rw [convert_assoc_elems_result host key pairs pm₁ pm₂]

/-- The converted entries of a list literal do not depend on the
incoming parsed map. -/
theorem convert_list_elems_result (host : Host) (key : String) :
    (l : List Literal) → ∀ pm₁ pm₂ : ParsedMap,
      (convert_list_elems host key pm₁ l).2 = (convert_list_elems host key pm₂ l).2
  | [], _, _ => rfl
  | lit :: rest, pm₁, pm₂ => by
    rcases hE₁ : convert_literal_to_byondvalue host key pm₁ lit with ⟨q₁, s₁⟩
    rcases hE₂ : convert_literal_to_byondvalue host key pm₂ lit with ⟨q₂, s₂⟩
    have hs : s₁ = s₂ := by
      have := convert_literal_result host key lit pm₁ pm₂
      rwa [hE₁, hE₂] at this
    subst hs
    cases s₁ with
    | ok v =>
      simp only [convert_list_elems, hE₁, hE₂]
      rw [convert_list_elems_result host key rest q₁ q₂]
    | error e =>
      simp only [convert_list_elems, hE₁, hE₂]
      exact convert_list_elems_result host key rest _ _

/-- The converted entries of an assoc-list literal do not depend on
the incoming parsed map. -/
theorem convert_assoc_elems_result (host : Host) (key : String) :
    (l : List (Literal × Literal)) → ∀ pm₁ pm₂ : ParsedMap,
      (convert_assoc_elems host key pm₁ l).2 = (convert_assoc_elems host key pm₂ l).2
  | [], _, _ => rfl
  | (lk, lv) :: rest, pm₁, pm₂ => by
    rcases hEk₁ : convert_literal_to_byondvalue host key pm₁ lk with ⟨qk₁, sk₁⟩
    rcases hEk₂ : convert_literal_to_byondvalue host key pm₂ lk with ⟨qk₂, sk₂⟩
    have hsk : sk₁ = sk₂ := by
      have := convert_literal_result host key lk pm₁ pm₂
      rwa [hEk₁, hEk₂] at this
    subst hsk
    rcases hEv₁ : convert_literal_to_byondvalue host key qk₁ lv with ⟨qv₁, sv₁⟩
    rcases hEv₂ : convert_literal_to_byondvalue host key qk₂ lv with ⟨qv₂, sv₂⟩
    have hsv : sv₁ = sv₂ := by
      have := convert_literal_result host key lv qk₁ qk₂
      rwa [hEv₁, hEv₂] at this
    subst hsv
    cases sk₁ with
    | ok kv =>
      cases sv₁ with
      | ok vv =>
        simp only [convert_assoc_elems, hEk₁, hEk₂, hEv₁, hEv₂]
        rw [convert_assoc_elems_result host key rest qv₁ qv₂]
      | error e =>
        simp only [convert_assoc_elems, hEk₁, hEk₂, hEv₁, hEv₂]
        exact convert_assoc_elems_result host key rest _ _
    | error e =>
      simp only [convert_assoc_elems, hEk₁, hEk₂, hEv₁, hEv₂]
      exact convert_assoc_elems_result host key rest _ _

end

/-- Warnings already present survive list-element conversion. -/
theorem convert_list_elems_mono (host : Host) (key : String) (l : List Literal)
    (pm : ParsedMap) (w : String) (hw : w ∈ pm.warnings) :
    w ∈ (convert_list_elems host key pm l).1.warnings := by
  rcases convert_list_elems_pm host key l pm with ⟨ws, hws⟩
  rw [hws]
  exact List.mem_append_left _ hw

/-- Warnings already present survive assoc-pair conversion. -/
theorem convert_assoc_elems_mono (host : Host) (key : String)
    (l : List (Literal × Literal)) (pm : ParsedMap) (w : String) (hw : w ∈ pm.warnings) :
    w ∈ (convert_assoc_elems host key pm l).1.warnings := by
  rcases convert_assoc_elems_pm host key l pm with ⟨ws, hws⟩
  rw [hws]
  exact List.mem_append_left _ hw

/-- The entries a list literal converts to are exactly the successful
per-element conversions, in order; failing elements are omitted. -/
theorem convert_list_elems_filterMap (host : Host) (key : String) :
    (l : List Literal) → ∀ pm : ParsedMap,
      (convert_list_elems host key pm l).2
        = l.filterMap fun lit =>
            match (convert_literal_to_byondvalue host key pm lit).2 with
            | .ok v => some (none, v)
            | .error _ => none
  | [], pm => rfl
  | lit :: rest, pm => by
    rcases hE : convert_literal_to_byondvalue host key pm lit with ⟨q, s⟩
    have hfun : ∀ q₀ : ParsedMap,
        (fun lit => match (convert_literal_to_byondvalue host key q₀ lit).2 with
          | .ok v => some ((none : Option BValue), v)
          | .error _ => none)
        = (fun lit => match (convert_literal_to_byondvalue host key pm lit).2 with
          | .ok v => some (none, v)
          | .error _ => none) := by
      intro q₀
      funext x
      rw [convert_literal_result host key x q₀ pm]
    cases s with
    | ok v =>
      simp only [convert_list_elems, hE, List.filterMap_cons]
      rw [convert_list_elems_filterMap host key rest q, hfun q]
    | error e =>
      simp only [convert_list_elems, hE, List.filterMap_cons]
      rw [convert_list_elems_filterMap host key rest
        (q.add_warning (listElemWarning key e)), hfun _]

/-- The entries an assoc-list literal converts to are exactly the
pairs whose key and value both convert, in order; a pair with a
failing key or value is omitted. -/
theorem convert_assoc_elems_filterMap (host : Host) (key : String) :
    (l : List (Literal × Literal)) → ∀ pm : ParsedMap,
      (convert_assoc_elems host key pm l).2
        = l.filterMap fun p =>
            match (convert_literal_to_byondvalue host key pm p.1).2,
                  (convert_literal_to_byondvalue host key pm p.2).2 with
            | .ok kv, .ok vv => some (some kv, vv)
            | _, _ => none
  | [], pm => rfl
  | (lk, lv) :: rest, pm => by
    rcases hEk : convert_literal_to_byondvalue host key pm lk with ⟨qk, sk⟩
    rcases hEv : convert_literal_to_byondvalue host key qk lv with ⟨qv, sv⟩
    have hv : (convert_literal_to_byondvalue host key pm lv).2 = sv := by
      have := convert_literal_result host key lv pm qk
      rw [hEv] at this
      exact this
    have hfun : ∀ q₀ : ParsedMap,
        (fun p : Literal × Literal =>
          match (convert_literal_to_byondvalue host key q₀ p.1).2,
                (convert_literal_to_byondvalue host key q₀ p.2).2 with
          | .ok kv, .ok vv => some ((some kv : Option BValue), vv)
          | _, _ => none)
        = (fun p : Literal × Literal =>
          match (convert_literal_to_byondvalue host key pm p.1).2,
                (convert_literal_to_byondvalue host key pm p.2).2 with
          | .ok kv, .ok vv => some (some kv, vv)
          | _, _ => none) := by
      intro q₀
      funext x
      rw [convert_literal_result host key x.1 q₀ pm, convert_literal_result host key x.2 q₀ pm]
    cases sk with
    | ok kv =>
      cases sv with
      | ok vv =>
        simp only [convert_assoc_elems, hEk, hEv, List.filterMap_cons, hv]
        rw [convert_assoc_elems_filterMap host key rest qv, hfun qv]
      | error e =>
        simp only [convert_assoc_elems, hEk, hEv, List.filterMap_cons, hv]
        rw [convert_assoc_elems_filterMap host key rest
          (qv.add_warning (assocValWarning key e)), hfun _]
    | error e =>
      simp only [convert_assoc_elems, hEk, hEv, List.filterMap_cons, hv]
      rw [convert_assoc_elems_filterMap host key rest
        (qv.add_warning (assocKeyWarning key e)), hfun _]

/-- A failing list element leaves its warning in the log. -/
theorem convert_list_elems_warn (host : Host) (key : String) :
    (l : List Literal) → ∀ (pm : ParsedMap) (lit : Literal) (e : String),
      lit ∈ l → (convert_literal_to_byondvalue host key pm lit).2 = .error e →
      listElemWarning key e ∈ (convert_list_elems host key pm l).1.warnings
  | [], _, _, _, hmem, _ => absurd hmem (List.not_mem_nil _)
  | hd :: rest, pm, lit, e, hmem, herr => by
    rcases hE : convert_literal_to_byondvalue host key pm hd with ⟨q, s⟩
    rcases List.mem_cons.mp hmem with hhd | htl
    · subst hhd
      rw [hE] at herr
      subst herr
      simp only [convert_list_elems, hE]
      exact convert_list_elems_mono host key rest _ _
        (by simp [ParsedMap.add_warning])
    · have herr₂ : ∀ q₀ : ParsedMap,
          (convert_literal_to_byondvalue host key q₀ lit).2 = .error e := by
        intro q₀
        rw [convert_literal_result host key lit q₀ pm]
        exact herr
      cases s with
      | ok v =>
        simp only [convert_list_elems, hE]
        exact convert_list_elems_warn host key rest q lit e htl (herr₂ q)
      | error e₁ =>
        simp only [convert_list_elems, hE]
        exact convert_list_elems_warn host key rest _ lit e htl (herr₂ _)

/-- A failing assoc-list key leaves its warning in the log. -/
theorem convert_assoc_elems_warn_key (host : Host) (key : String) :
    (l : List (Literal × Literal)) → ∀ (pm : ParsedMap) (lk lv : Literal) (e : String),
      (lk, lv) ∈ l → (convert_literal_to_byondvalue host key pm lk).2 = .error e →
      assocKeyWarning key e ∈ (convert_assoc_elems host key pm l).1.warnings
  | [], _, _, _, _, hmem, _ => absurd hmem (List.not_mem_nil _)
  | (hk, hv) :: rest, pm, lk, lv, e, hmem, herr => by
    rcases hEk : convert_literal_to_byondvalue host key pm hk with ⟨qk, sk⟩
    rcases hEv : convert_literal_to_byondvalue host key qk hv with ⟨qv, sv⟩
    have herr₂ : ∀ q₀ : ParsedMap,
        (convert_literal_to_byondvalue host key q₀ lk).2 = .error e := by
      intro q₀
      rw [convert_literal_result host key lk q₀ pm]
      exact herr
    rcases List.mem_cons.mp hmem with hhd | htl
    · have hk₁ : hk = lk := congrArg Prod.fst hhd.symm
      subst hk₁
      rw [hEk] at herr
      cases herr
      simp only [convert_assoc_elems, hEk, hEv]
      exact convert_assoc_elems_mono host key rest _ _
        (by simp [ParsedMap.add_warning])
    · cases sk with
      | ok kv =>
        cases sv with
        | ok vv =>
          simp only [convert_assoc_elems, hEk, hEv]
          exact convert_assoc_elems_warn_key host key rest qv lk lv e htl (herr₂ qv)
        | error e₁ =>
          simp only [convert_assoc_elems, hEk, hEv]
          exact convert_assoc_elems_warn_key host key rest _ lk lv e htl (herr₂ _)
      | error e₁ =>
        simp only [convert_assoc_elems, hEk, hEv]
        exact convert_assoc_elems_warn_key host key rest _ lk lv e htl (herr₂ _)

/-- A failing assoc-list value (under a succeeding key) leaves its
warning in the log. -/
theorem convert_assoc_elems_warn_val (host : Host) (key : String) :
    (l : List (Literal × Literal)) →
      ∀ (pm : ParsedMap) (lk lv : Literal) (kv : BValue) (e : String),
      (lk, lv) ∈ l →
      (convert_literal_to_byondvalue host key pm lk).2 = .ok kv →
      (convert_literal_to_byondvalue host key pm lv).2 = .error e →
      assocValWarning key e ∈ (convert_assoc_elems host key pm l).1.warnings
  | [], _, _, _, _, _, hmem, _, _ => absurd hmem (List.not_mem_nil _)
  | (hk, hv) :: rest, pm, lk, lv, kv, e, hmem, hkok, herr => by
    rcases hEk : convert_literal_to_byondvalue host key pm hk with ⟨qk, sk⟩
    rcases hEv : convert_literal_to_byondvalue host key qk hv with ⟨qv, sv⟩
    have hkok₂ : ∀ q₀ : ParsedMap,
        (convert_literal_to_byondvalue host key q₀ lk).2 = .ok kv := by
      intro q₀
      rw [convert_literal_result host key lk q₀ pm]
      exact hkok
    have herr₂ : ∀ q₀ : ParsedMap,
        (convert_literal_to_byondvalue host key q₀ lv).2 = .error e := by
      intro q₀
      rw [convert_literal_result host key lv q₀ pm]
      exact herr
    rcases List.mem_cons.mp hmem with hhd | htl
    · have hk₁ : hk = lk := congrArg Prod.fst hhd.symm
      have hv₁ : hv = lv := congrArg Prod.snd hhd.symm
      subst hk₁
      subst hv₁
      rw [hEk] at hkok
      cases hkok
      have hsv : sv = .error e := by
        have := herr₂ qk
        rw [hEv] at this
        exact this
      subst hsv
      simp only [convert_assoc_elems, hEk, hEv]
      exact convert_assoc_elems_mono host key rest _ _
        (by simp [ParsedMap.add_warning])
    · cases sk with
      | ok kv₁ =>
        cases sv with
        | ok vv =>
          simp only [convert_assoc_elems, hEk, hEv]
          exact convert_assoc_elems_warn_val host key rest qv lk lv kv e htl
            (hkok₂ qv) (herr₂ qv)
        | error e₁ =>
          simp only [convert_assoc_elems, hEk, hEv]
          exact convert_assoc_elems_warn_val host key rest _ lk lv kv e htl
            (hkok₂ _) (herr₂ _)
      | error e₁ =>
        simp only [convert_assoc_elems, hEk, hEv]
        exact convert_assoc_elems_warn_val host key rest _ lk lv kv e htl
          (hkok₂ _) (herr₂ _)

/-- C8: variable-list materialization degrades locally: a list literal
always converts successfully to exactly its successfully-converted
elements in order (a failing element is omitted, never aborting the
list); likewise an assoc list keeps exactly the pairs whose key and
value both convert; each failing element, key, or value records its
warning; and a Fallback literal converts to the host string of its raw
text with its warning always recorded. -/
theorem claim8_local_degradation (host : Host) (key : String) (pm : ParsedMap) :
    (∀ l, (convert_literal_to_byondvalue host key pm (.list l)).2
        = .ok (.blist (l.filterMap fun lit =>
            match (convert_literal_to_byondvalue host key pm lit).2 with
            | .ok v => some (none, v)
            | .error _ => none)))
    ∧ (∀ l, (convert_literal_to_byondvalue host key pm (.assocList l)).2
        = .ok (.blist (l.filterMap fun p =>
            match (convert_literal_to_byondvalue host key pm p.1).2,
                  (convert_literal_to_byondvalue host key pm p.2).2 with
            | .ok kv, .ok vv => some (some kv, vv)
            | _, _ => none)))
    ∧ (∀ l lit e, lit ∈ l →
        (convert_literal_to_byondvalue host key pm lit).2 = .error e →
        listElemWarning key e
          ∈ (convert_literal_to_byondvalue host key pm (.list l)).1.warnings)
    ∧ (∀ l lk lv e, (lk, lv) ∈ l →
        (convert_literal_to_byondvalue host key pm lk).2 = .error e →
        assocKeyWarning key e
          ∈ (convert_literal_to_byondvalue host key pm (.assocList l)).1.warnings)
    ∧ (∀ l lk lv kv e, (lk, lv) ∈ l →
        (convert_literal_to_byondvalue host key pm lk).2 = .ok kv →
        (convert_literal_to_byondvalue host key pm lv).2 = .error e →
        assocValWarning key e
          ∈ (convert_literal_to_byondvalue host key pm (.assocList l)).1.warnings)
    ∧ (∀ s, convert_literal_to_byondvalue host key pm (.fallback s)
        = (pm.add_warning (fallbackWarning key s), host.newStr s)) := by
  refine ⟨?_, ?_, ?_, ?_, ?_, ?_⟩
  · intro l
    simp only [convert_literal_to_byondvalue]
    rw [convert_list_elems_filterMap host key l pm]
  · intro l
    simp only [convert_literal_to_byondvalue]
    rw [convert_assoc_elems_filterMap host key l pm]
  · intro l lit e hmem herr
    simp only [convert_literal_to_byondvalue]
    exact convert_list_elems_warn host key l pm lit e hmem herr
  · intro l lk lv e hmem herr
    simp only [convert_literal_to_byondvalue]
    exact convert_assoc_elems_warn_key host key l pm lk lv e hmem herr
  · intro l lk lv kv e hmem hkok herr
    simp only [convert_literal_to_byondvalue]
    exact convert_assoc_elems_warn_val host key l pm lk lv kv e hmem hkok herr
  · intro s
    rfl

/-- Witness for C8 against a host that fails to resolve the type path
slash-bad: in the two-element list the failing path element is
omitted with its warning recorded while the null element still
converts. -/
theorem claim8_local_degradation_witness :
    (convert_literal_to_byondvalue flakyHost "vkey" pm0
        (.list [.path "/bad", .null])).2
      = .ok (.blist [(none, .null)])
    ∧ listElemWarning "vkey" "cannot resolve path"
        ∈ (convert_literal_to_byondvalue flakyHost "vkey" pm0
            (.list [.path "/bad", .null])).1.warnings := by
  constructor
  · have h := (claim8_local_degradation flakyHost "vkey" pm0).1 [.path "/bad", .null]
    rw [h]
    rfl
  · exact (claim8_local_degradation flakyHost "vkey" pm0).2.2.1 [.path "/bad", .null]
      (.path "/bad") "cannot resolve path" (List.mem_cons_self _ _) rfl

/-- Literal conversion never touches the loading flag. -/
theorem convert_literal_loading (host : Host) (key : String) (lit : Literal)
    (pm : ParsedMap) :
    (convert_literal_to_byondvalue host key pm lit).1.loading = pm.loading := by
  rcases convert_literal_pm host key lit pm with ⟨ws, h⟩
  rw [h]

/-- The variable-entry loop never touches the loading flag. -/
theorem convert_vars_entries_loading (host : Host) :
    (l : List (String × Literal)) → ∀ (pm : ParsedMap) acc,
      (convert_vars_entries host pm acc l).1.loading = pm.loading
  | [], _, _ => rfl
  | (key, lit) :: rest, pm, acc => by
    rcases hE : convert_literal_to_byondvalue host key pm lit with ⟨q, r⟩
    have hq : q.loading = pm.loading := by
      have := convert_literal_loading host key lit pm
      rw [hE] at this
      exact this
    cases r with
    | error e =>
      simp only [convert_vars_entries, hE]
      exact hq
    | ok v =>
      cases hn : host.newStr key with
      | error e =>
        simp only [convert_vars_entries, hE, hn]
        exact hq
      | ok kstr =>
        simp only [convert_vars_entries, hE, hn]
        rw [convert_vars_entries_loading host rest q _]
        exact hq

/-- Variable-list materialization never touches the loading flag. -/
theorem convert_vars_list_loading (host : Host)
    (vars : Option (List (String × Literal))) (pm : ParsedMap) :
    (convert_vars_list_to_byondlist host pm vars).1.loading = pm.loading := by
  cases vars with
  | none => rfl
  | some l =>
    rcases hE : convert_vars_entries host pm [] l with ⟨q, r⟩
    have hq : q.loading = pm.loading := by
      have := convert_vars_entries_loading host l pm []
      rw [hE] at this
      exact this
    cases r with
    | error e =>
      simp only [convert_vars_list_to_byondlist, hE]
      exact hq
    | ok entries =>
      simp only [convert_vars_list_to_byondlist, hE]
      exact hq

/-- Turf creation never touches the loading flag. -/
theorem create_turf_loading (host : Host) (pm : ParsedMap) (turf : BValue)
    (pf : Prefab) (pot ncf : Bool) :
    (create_turf host pm turf pf pot ncf).1.loading = pm.loading := by
  simp only [create_turf]
  split
  · exact convert_vars_list_loading host pf.2 pm
  · exact convert_vars_list_loading host pf.2 pm

/-- Movable creation never touches the loading flag. -/
theorem create_movable_loading (host : Host) (pm : ParsedMap)
    (cache : List (String × BValue)) (turf : BValue) (obj : Prefab) :
    (create_movable host pm cache turf obj).1.loading = pm.loading := by
  simp only [create_movable]
  repeat' split
  all_goals simp_all [convert_vars_list_loading]

/-- One command execution never touches the loading flag. -/
theorem exec_loading (host : Host) (st : BufState) (c : Command) :
    (execCommand host st c).1.pm.loading = st.pm.loading := by
  cases c with
  | createArea loc pf nz =>
    simp only [execCommand]
    rcases hag : assocGet st.created_areas pf.1 with _ | a
    · rcases hco : host.createOrGetArea pf.1 with e | a
      · simp only [hag, hco]
      · simp only [hag, hco]
        repeat' split
        all_goals simp_all [ParsedMap.add_warning]
    · simp only [hag]
      repeat' split
      all_goals simp_all [ParsedMap.add_warning]
  | createTurf loc pf ncf pot =>
    simp only [execCommand]
    repeat' split
    all_goals simp_all [ParsedMap.add_warning, create_turf_loading]
  | createAtom loc pf =>
    simp only [execCommand]
    repeat' split
    all_goals simp_all [ParsedMap.add_warning, create_movable_loading]

/-- The command loop never touches the loading flag. -/
theorem runCommands_loading (host : Host) :
    (cs : List Command) → ∀ (st : BufState) (counter ticks : Nat) (trace : List Command),
      (runCommands host st counter ticks trace cs).st.pm.loading = st.pm.loading
  | [], _, _, _, _ => rfl
  | c :: rest, st, counter, ticks, trace => by
    rcases hE : execCommand host st c with ⟨st₁, r⟩
    have h₁ : st₁.pm.loading = st.pm.loading := by
      have := exec_loading host st c
      rw [hE] at this
      exact this
    cases r with
    | error e =>
      simp only [runCommands, hE]
      exact h₁
    | ok u =>
      cases u
      by_cases hc : (counter + 1) % MIN_PAUSE = 0
      · by_cases ht : host.tickCheck ticks = true
        · simp only [runCommands, hE]
          rw [if_pos hc, if_pos ht]
          exact h₁
        · simp only [runCommands, hE]
          rw [if_pos hc, if_neg ht, runCommands_loading host rest st₁ _ _ _]
          exact h₁
      · simp only [runCommands, hE]
        rw [if_neg hc, runCommands_loading host rest st₁ _ _ _]
        exact h₁

/-- C10: a drain invocation that yields (more work pending) leaves the
loading flag unchanged; the flag is set to false exactly on the paths
returning done (0), including the path where the resume key has no
resident buffer; error returns also leave it unchanged. -/
theorem claim10_loading_flag (host : Host) (maps : List InternalData) (pm : ParsedMap)
    (id rkey : Nat) :
    ((bapidmm_work_commandbuffer host maps pm id rkey).result = .ok 1 →
      (bapidmm_work_commandbuffer host maps pm id rkey).pm.loading = pm.loading)
    ∧ ((bapidmm_work_commandbuffer host maps pm id rkey).result = .ok 0 →
      (bapidmm_work_commandbuffer host maps pm id rkey).pm.loading = false)
    ∧ (∀ e, (bapidmm_work_commandbuffer host maps pm id rkey).result = .error e →
      (bapidmm_work_commandbuffer host maps pm id rkey).pm.loading = pm.loading)
    ∧ (∀ internal, maps.get? id = some internal →
      assocGet internal.command_buffers rkey = none →
      (bapidmm_work_commandbuffer host maps pm id rkey).result = .ok 0
      ∧ (bapidmm_work_commandbuffer host maps pm id rkey).pm.loading = false) := by
  rcases hm : maps.get? id with _ | internal
  · refine ⟨?_, ?_, ?_, ?_⟩
    · intro h
      simp only [bapidmm_work_commandbuffer, hm] at h
      exact Except.noConfusion h
    · intro h
      simp only [bapidmm_work_commandbuffer, hm] at h
      exact Except.noConfusion h
    · intro e h
      simp only [bapidmm_work_commandbuffer, hm]
    · intro internal h
      exact Option.noConfusion h
  · rcases hb : assocGet internal.command_buffers rkey with _ | buf
    · refine ⟨?_, ?_, ?_, ?_⟩
      · intro h
        simp only [bapidmm_work_commandbuffer, hm, hb] at h
        exact absurd (Except.ok.inj h) (by decide)
      · intro h
        simp only [bapidmm_work_commandbuffer, hm, hb, ParsedMap.set_loading]
      · intro e h
        simp only [bapidmm_work_commandbuffer, hm, hb] at h
        exact Except.noConfusion h
      · intro internal₁ h₁ h₂
        cases h₁
        simp only [bapidmm_work_commandbuffer, hm, hb, ParsedMap.set_loading]
        exact ⟨trivial, trivial⟩
    · have hload := runCommands_loading host buf.commands
        ⟨pm, buf.created_areas, buf.known_types, buf.cached_turfs.check_invalidate host⟩
        0 0 []
      refine ⟨?_, ?_, ?_, ?_⟩
      · intro h
        cases ho : (runCommands host
            ⟨pm, buf.created_areas, buf.known_types,
              buf.cached_turfs.check_invalidate host⟩ 0 0 [] buf.commands).outcome with
        | finished =>
          simp only [bapidmm_work_commandbuffer, hm, hb, ho] at h
          exact absurd (Except.ok.inj h) (by decide)
        | yielded =>
          simp only [bapidmm_work_commandbuffer, hm, hb, ho]
          exact hload
        | failed e =>
          simp only [bapidmm_work_commandbuffer, hm, hb, ho] at h
          exact Except.noConfusion h
      · intro h
        cases ho : (runCommands host
            ⟨pm, buf.created_areas, buf.known_types,
              buf.cached_turfs.check_invalidate host⟩ 0 0 [] buf.commands).outcome with
        | finished =>
          simp only [bapidmm_work_commandbuffer, hm, hb, ho, ParsedMap.set_loading]
        | yielded =>
          simp only [bapidmm_work_commandbuffer, hm, hb, ho] at h
          exact absurd (Except.ok.inj h) (by decide)
        | failed e =>
          simp only [bapidmm_work_commandbuffer, hm, hb, ho] at h
          exact Except.noConfusion h
      · intro e h
        cases ho : (runCommands host
            ⟨pm, buf.created_areas, buf.known_types,
              buf.cached_turfs.check_invalidate host⟩ 0 0 [] buf.commands).outcome with
        | finished =>
          simp only [bapidmm_work_commandbuffer, hm, hb, ho] at h
          exact Except.noConfusion h
        | yielded =>
          simp only [bapidmm_work_commandbuffer, hm, hb, ho] at h
          exact Except.noConfusion h
        | failed e₁ =>
          simp only [bapidmm_work_commandbuffer, hm, hb, ho]
          exact hload
      · intro internal₁ h₁ h₂
        cases h₁
        rw [hb] at h₂
        exact Option.noConfusion h₂

/-- Witness for C10: a one-command buffer drains to completion in one
invocation; the returned value is 0 and the loading flag, initially
true, has been set to false. -/
theorem claim10_loading_flag_witness :
    (bapidmm_work_commandbuffer tiredHost (tiredMaps [skipCmd]) pm0 0 0).pm.loading
      = false :=
  (claim10_loading_flag tiredHost (tiredMaps [skipCmd]) pm0 0 0).2.1 rfl

/-- One batch of the command loop. Under an invariant `P` that every
command of `cs` preserves while executing successfully and touching
only the parsed map, and starting `j` executions short of the next
batch boundary (`1 ≤ j ≤ MIN_PAUSE`, `(counter + j) % MIN_PAUSE = 0`):
if fewer than `j` commands remain the loop drains them all and
finishes without consulting the tick budget; otherwise it executes
exactly `j` commands, consults the budget once, and either yields
immediately (budget exhausted) or continues on the remaining
commands. -/
theorem runCommands_batch (host : Host) (P : BufState → Prop) :
    (cs : List Command) →
    (∀ st c, c ∈ cs → P st → ∃ pm₁,
      execCommand host st c = ({ st with pm := pm₁ }, .ok ()) ∧ P { st with pm := pm₁ }) →
    ∀ (j : Nat) (st : BufState) (counter ticks : Nat) (trace : List Command),
      P st → 1 ≤ j → j ≤ MIN_PAUSE → (counter + j) % MIN_PAUSE = 0 →
      (cs.length < j →
        ∃ pm₂, runCommands host st counter ticks trace cs
            = ⟨{ st with pm := pm₂ }, [], trace ++ cs, ticks, .finished⟩
          ∧ P { st with pm := pm₂ })
      ∧ (j ≤ cs.length →
        ∃ pm₂, P { st with pm := pm₂ }
          ∧ (host.tickCheck ticks = true →
              runCommands host st counter ticks trace cs
                = ⟨{ st with pm := pm₂ }, cs.drop j, trace ++ cs.take j, ticks + 1,
                    .yielded⟩)
          ∧ (host.tickCheck ticks = false →
              runCommands host st counter ticks trace cs
                = runCommands host { st with pm := pm₂ } (counter + j) (ticks + 1)
                    (trace ++ cs.take j) (cs.drop j)))
  | [], _, j, st, counter, ticks, trace, hP, hj1, _, _ => by
    constructor
    · intro _
      exact ⟨st.pm, by simp [runCommands], hP⟩
    · intro hlen
      simp at hlen
      omega
  | c :: rest, Hexec, j, st, counter, ticks, trace, hP, hj1, hj2, hc => by
    obtain ⟨pm₁, hE, hP₁⟩ := Hexec st c (List.mem_cons_self c rest) hP
    have hM : MIN_PAUSE = 100 := rfl
    by_cases hj : j = 1
    · subst hj
      constructor
      · intro hlen
        simp at hlen
      · intro _
        refine ⟨pm₁, hP₁, ?_, ?_⟩
        · intro ht
          simp only [runCommands, hE]
          rw [if_pos (by omega), if_pos ht]
          rfl
        · intro ht
          simp only [runCommands, hE]
          rw [if_pos (by omega), if_neg (by simp [ht])]
          rfl
    · have hne : ¬((counter + 1) % MIN_PAUSE = 0) := by
        rw [hM] at hc hj2 ⊢
        omega
      have IH := runCommands_batch host P rest
        (fun st' c' hmem hP' => Hexec st' c' (List.mem_cons_of_mem c hmem) hP')
        (j - 1) { st with pm := pm₁ } (counter + 1) ticks (trace ++ [c]) hP₁
        (by omega) (by omega) (by rw [hM] at hc ⊢; omega)
      obtain ⟨j', rfl⟩ : ∃ j', j = j' + 1 := ⟨j - 1, by omega⟩
      constructor
      · intro hlen
        have hlen' : rest.length < j' + 1 - 1 := by
          simp at hlen
          omega
        obtain ⟨pm₂, hrun, hP₂⟩ := IH.1 hlen'
        refine ⟨pm₂, ?_, hP₂⟩
        simp only [runCommands, hE]
        rw [if_neg hne, hrun]
        simp
      · intro hlen
        have hlen' : j' + 1 - 1 ≤ rest.length := by
          simp at hlen
          omega
        obtain ⟨pm₂, hP₂, hyield, hcont⟩ := IH.2 hlen'
        refine ⟨pm₂, hP₂, ?_, ?_⟩
        · intro ht
          simp only [runCommands, hE]
          rw [if_neg hne, hyield ht]
          simp
        · intro ht
          simp only [runCommands, hE]
          rw [if_neg hne, hcont ht]
          have harith : counter + 1 + (j' + 1 - 1) = counter + (j' + 1) := by omega
          rw [harith]
          simp

/-- With a never-exhausted tick budget the command loop, under the
same invariant, drains the whole stack in a single invocation,
consulting the budget at every batch boundary and continuing each
time. -/
theorem runCommands_nofatigue (host : Host) (P : BufState → Prop)
    (Htick : ∀ i, host.tickCheck i = false) :
    ∀ (n : Nat) (cs : List Command), cs.length = n →
    (∀ st c, c ∈ cs → P st → ∃ pm₁,
      execCommand host st c = ({ st with pm := pm₁ }, .ok ()) ∧ P { st with pm := pm₁ }) →
    ∀ (st : BufState) (counter ticks : Nat) (trace : List Command),
      P st → counter % MIN_PAUSE = 0 →
      ∃ pm₂ t₂, runCommands host st counter ticks trace cs
          = ⟨{ st with pm := pm₂ }, [], trace ++ cs, t₂, .finished⟩
        ∧ P { st with pm := pm₂ } := by
  intro n
  induction n using Nat.strong_induction_on with
  | _ n IH =>
    intro cs hlen Hexec st counter ticks trace hP hc
    have hM : MIN_PAUSE = 100 := rfl
    by_cases hsmall : cs.length < MIN_PAUSE
    · obtain ⟨pm₂, hrun, hP₂⟩ := (runCommands_batch host P cs Hexec MIN_PAUSE st
        counter ticks trace hP (by omega) (le_refl _) (by rw [hM] at hc ⊢; omega)).1 hsmall
      exact ⟨pm₂, ticks, hrun, hP₂⟩
    · push_neg at hsmall
      obtain ⟨pm₂, hP₂, _, hcont⟩ := (runCommands_batch host P cs Hexec MIN_PAUSE st
        counter ticks trace hP (by omega) (le_refl _) (by rw [hM] at hc ⊢; omega)).2 hsmall
      obtain ⟨pm₃, t₃, hrun₃, hP₃⟩ := IH (n - MIN_PAUSE)
        (by omega)
        (cs.drop MIN_PAUSE) (by simp [hlen])
        (fun st' c' hmem hP' => Hexec st' c' (List.drop_subset _ _ hmem) hP')
        { st with pm := pm₂ } (counter + MIN_PAUSE) (ticks + 1)
        (trace ++ cs.take MIN_PAUSE) hP₂ (by rw [hM] at hc ⊢; omega)
      refine ⟨pm₃, t₃, ?_, hP₃⟩
      rw [hcont (Htick ticks), hrun₃]
      simp [List.take_append_drop]

/-- Executing a `skipShape` command in a state where `(1,1,1)` is
cached null warns and skips, touching only the parsed map. -/
theorem skip_exec (host : Host) (st : BufState) (c : Command)
    (hc : skipShape c = true) (hP : nullCachedAt st) :
    execCommand host st c
      = ({ st with pm := st.pm.add_warning (nullWarning (1, 1, 1)) }, .ok ()) := by
  cases c with
  | createTurf loc pf ncf pot =>
    have hloc : loc = (1, 1, 1) := of_decide_eq_true hc
    subst hloc
    have hP' : assocGet st.cached_turfs.cached_turfs (1, 1, 1) = some BValue.null := hP
    simp only [execCommand, CachedTurfs.resolve_coord]
    rw [hP']
    rfl
  | createArea loc pf nz => simp [skipShape] at hc
  | createAtom loc pf => simp [skipShape] at hc

/-- A stack of `skipShape` commands satisfies the batch lemma's
invariant hypothesis with `nullCachedAt`. -/
theorem skip_Hexec (host : Host) (cs : List Command)
    (hall : ∀ c ∈ cs, skipShape c = true) :
    ∀ st c, c ∈ cs → nullCachedAt st → ∃ pm₁,
      execCommand host st c = ({ st with pm := pm₁ }, .ok ())
      ∧ nullCachedAt { st with pm := pm₁ } :=
  fun st c hmem hP =>
    ⟨st.pm.add_warning (nullWarning (1, 1, 1)), skip_exec host st c (hall c hmem) hP, hP⟩

/-- C3: within one invocation the loop pops and executes commands one
at a time: a stack shorter than the batch size drains completely with
no tick consultation; at the batch boundary the budget is consulted
and, when exhausted, the invocation stops immediately with exactly one
batch executed, reporting more work pending; when the budget is never
exhausted, draining continues batch after batch to completion. -/
theorem claim3_batched_draining (host : Host) (P : BufState → Prop) (cs : List Command)
    (Hexec : ∀ st c, c ∈ cs → P st → ∃ pm₁,
      execCommand host st c = ({ st with pm := pm₁ }, .ok ()) ∧ P { st with pm := pm₁ })
    (st : BufState) (hP : P st) :
    (cs.length < MIN_PAUSE →
      ∃ pm₂, runCommands host st 0 0 [] cs
        = ⟨{ st with pm := pm₂ }, [], cs, 0, .finished⟩)
    ∧ (MIN_PAUSE ≤ cs.length → host.tickCheck 0 = true →
      ∃ pm₂, runCommands host st 0 0 [] cs
        = ⟨{ st with pm := pm₂ }, cs.drop MIN_PAUSE, cs.take MIN_PAUSE, 1, .yielded⟩)
    ∧ ((∀ i, host.tickCheck i = false) →
      ∃ pm₂ t₂, runCommands host st 0 0 [] cs
        = ⟨{ st with pm := pm₂ }, [], cs, t₂, .finished⟩) := by
  refine ⟨?_, ?_, ?_⟩
  · intro hlen
    obtain ⟨pm₂, hrun, _⟩ := (runCommands_batch host P cs Hexec MIN_PAUSE st 0 0 [] hP
      (by decide) (le_refl _) (by decide)).1 hlen
    exact ⟨pm₂, hrun⟩
  · intro hlen ht
    obtain ⟨pm₂, _, hyield, _⟩ := (runCommands_batch host P cs Hexec MIN_PAUSE st 0 0 [] hP
      (by decide) (le_refl _) (by decide)).2 hlen
    exact ⟨pm₂, hyield ht⟩
  · intro htick
    obtain ⟨pm₂, t₂, hrun, _⟩ := runCommands_nofatigue host P htick cs.length cs rfl
      Hexec st 0 0 [] hP (by decide)
    exact ⟨pm₂, t₂, hrun⟩

/-- Witness for C3 with a one-command stack (below the batch size): it
drains to completion with the command executed and zero tick
consultations. -/
theorem claim3_batched_draining_witness :
    (runCommands tiredHost nullSt 0 0 [] [skipCmd]).outcome = .finished
    ∧ (runCommands tiredHost nullSt 0 0 [] [skipCmd]).trace = [skipCmd]
    ∧ (runCommands tiredHost nullSt 0 0 [] [skipCmd]).ticks = 0 := by
  obtain ⟨pm₂, h⟩ := (claim3_batched_draining tiredHost nullCachedAt [skipCmd]
    (skip_Hexec tiredHost [skipCmd] (by decide)) nullSt rfl).1 (by decide)
  rw [h]
  exact ⟨rfl, rfl, rfl⟩

/-- One drain invocation on a skip-command stack under the
always-exhausted host: a stack below the batch size drains fully and
removes the buffer, reporting done; otherwise exactly one batch is
executed and the buffer is kept with the rest of the stack, reporting
more work pending. -/
theorem tired_work (cs : List Command) (hall : ∀ c ∈ cs, skipShape c = true)
    (pm : ParsedMap) :
    (cs.length < MIN_PAUSE →
      ∃ pm₁ : ParsedMap, bapidmm_work_commandbuffer tiredHost (tiredMaps cs) pm 0 0
        = ⟨.ok 0, pm₁.set_loading false, [⟨[]⟩], cs⟩)
    ∧ (MIN_PAUSE ≤ cs.length →
      ∃ pm₁ : ParsedMap, bapidmm_work_commandbuffer tiredHost (tiredMaps cs) pm 0 0
        = ⟨.ok 1, pm₁, tiredMaps (cs.drop MIN_PAUSE), cs.take MIN_PAUSE⟩) := by
  have hget : (tiredMaps cs).get? 0 = some ⟨[(0, tiredBuf cs)]⟩ := rfl
  have hbuf : assocGet (⟨[(0, tiredBuf cs)]⟩ : InternalData).command_buffers 0
      = some (tiredBuf cs) := rfl
  have hinv : (tiredBuf cs).cached_turfs.check_invalidate tiredHost
      = ⟨(1, 1, 1), [(((1, 1, 1) : Coord), BValue.null)]⟩ := rfl
  have hca : (tiredBuf cs).created_areas = [] := rfl
  have hkt : (tiredBuf cs).known_types = [] := rfl
  have hcmds : (tiredBuf cs).commands = cs := rfl
  have hP0 : nullCachedAt
      (⟨pm, [], [], ⟨(1, 1, 1), [(((1, 1, 1) : Coord), BValue.null)]⟩⟩ : BufState) := rfl
  constructor
  · intro hlen
    obtain ⟨pm₂, hrun, _⟩ := (runCommands_batch tiredHost nullCachedAt cs
      (skip_Hexec tiredHost cs hall) MIN_PAUSE
      ⟨pm, [], [], ⟨(1, 1, 1), [(((1, 1, 1) : Coord), BValue.null)]⟩⟩ 0 0 [] hP0
      (by decide) (le_refl _) (by decide)).1 hlen
    refine ⟨pm₂, ?_⟩
    simp only [bapidmm_work_commandbuffer, hget, hbuf, hinv, hca, hkt, hcmds, hrun]
    simp [assocRemove, List.set]
  · intro hlen
    obtain ⟨pm₂, _, hyield, _⟩ := (runCommands_batch tiredHost nullCachedAt cs
      (skip_Hexec tiredHost cs hall) MIN_PAUSE
      ⟨pm, [], [], ⟨(1, 1, 1), [(((1, 1, 1) : Coord), BValue.null)]⟩⟩ 0 0 [] hP0
      (by decide) (le_refl _) (by decide)).2 hlen
    have hrun := hyield rfl
    refine ⟨pm₂, ?_⟩
    simp only [bapidmm_work_commandbuffer, hget, hbuf, hinv, hca, hkt, hcmds, hrun]
    simp [assocSet, List.set, tiredMaps, tiredBuf]

/-- Unfolding one drain invocation out of an iterated run. -/
theorem runDrains_succ (host : Host) (maps : List InternalData) (pm : ParsedMap)
    (id rkey n : Nat) :
    runDrains host maps pm id rkey (n + 1)
      = ⟨(bapidmm_work_commandbuffer host maps pm id rkey).result ::
          (runDrains host (bapidmm_work_commandbuffer host maps pm id rkey).maps
            (bapidmm_work_commandbuffer host maps pm id rkey).pm id rkey n).results,
         (bapidmm_work_commandbuffer host maps pm id rkey).trace ++
          (runDrains host (bapidmm_work_commandbuffer host maps pm id rkey).maps
            (bapidmm_work_commandbuffer host maps pm id rkey).pm id rkey n).trace,
         (runDrains host (bapidmm_work_commandbuffer host maps pm id rkey).maps
            (bapidmm_work_commandbuffer host maps pm id rkey).pm id rkey n).maps,
         (runDrains host (bapidmm_work_commandbuffer host maps pm id rkey).maps
            (bapidmm_work_commandbuffer host maps pm id rkey).pm id rkey n).pm⟩ := rfl

/-- Iterated drains of a skip-command stack under the always-exhausted
host: the buffer survives the first length / MIN_PAUSE invocations
(each reporting pending), is removed by the following invocation
(reporting done), and the concatenated trace is the original stack in
order. -/
theorem tired_drains (n : Nat) :
    ∀ cs : List Command, cs.length = n → (∀ c ∈ cs, skipShape c = true) →
    ∀ pm : ParsedMap,
      (runDrains tiredHost (tiredMaps cs) pm 0 0 (cs.length / MIN_PAUSE)).maps
          = tiredMaps (cs.drop (MIN_PAUSE * (cs.length / MIN_PAUSE)))
      ∧ (runDrains tiredHost (tiredMaps cs) pm 0 0 (cs.length / MIN_PAUSE + 1)).results
          = List.replicate (cs.length / MIN_PAUSE) (Except.ok 1) ++ [Except.ok 0]
      ∧ (runDrains tiredHost (tiredMaps cs) pm 0 0 (cs.length / MIN_PAUSE + 1)).trace = cs
      ∧ (runDrains tiredHost (tiredMaps cs) pm 0 0 (cs.length / MIN_PAUSE + 1)).maps
          = [⟨[]⟩] := by
  induction n using Nat.strong_induction_on with
  | _ n IH =>
    intro cs hlen hall pm
    have hM : MIN_PAUSE = 100 := rfl
    by_cases hsmall : cs.length < MIN_PAUSE
    · have hq : cs.length / MIN_PAUSE = 0 := Nat.div_eq_of_lt hsmall
      obtain ⟨pm₁, hw⟩ := (tired_work cs hall pm).1 hsmall
      rw [hq]
      refine ⟨?_, ?_, ?_, ?_⟩
      · simp [runDrains]
      · simp [runDrains, hw]
      · simp [runDrains, hw]
      · simp [runDrains, hw]
    · push_neg at hsmall
      obtain ⟨pm₁, hw⟩ := (tired_work cs hall pm).2 hsmall
      have hall' : ∀ c ∈ cs.drop MIN_PAUSE, skipShape c = true :=
        fun c hm => hall c (List.drop_subset _ _ hm)
      have hlen' : (cs.drop MIN_PAUSE).length = n - MIN_PAUSE := by
        simp [hlen]
      obtain ⟨ih1, ih2, ih3, ih4⟩ := IH (n - MIN_PAUSE) (by omega)
        (cs.drop MIN_PAUSE) hlen' hall' pm₁
      have hq : cs.length / MIN_PAUSE = (cs.drop MIN_PAUSE).length / MIN_PAUSE + 1 := by
        rw [hlen', hlen, hM]
        omega
      have harith : MIN_PAUSE + MIN_PAUSE * ((cs.drop MIN_PAUSE).length / MIN_PAUSE)
          = MIN_PAUSE * ((cs.drop MIN_PAUSE).length / MIN_PAUSE + 1) := by
        rw [hM]
        omega
      refine ⟨?_, ?_, ?_, ?_⟩
      · rw [hq, runDrains_succ, hw]
        dsimp only
        rw [ih1, List.drop_drop, harith]
      · rw [hq, runDrains_succ, hw]
        dsimp only
        rw [ih2, List.replicate_succ]
        rfl
      · rw [hq, runDrains_succ, hw]
        dsimp only
        rw [ih3, List.take_append_drop]
      · rw [hq, runDrains_succ, hw]
        dsimp only
        rw [ih4]

/-- C1 (amended): with the host reporting the tick budget exhausted at
every consultation, draining a buffer of N commands takes exactly
N / K + 1 invocations where K = MIN_PAUSE (that is one more than the
claimed ceiling of N over K whenever K divides N, because the budget
check fires right after the K-th execution even when it emptied the
stack, so the then-empty buffer is only removed by the next
invocation): the buffer is still resident after the first N / K
invocations, which each execute one full batch and report more work
pending; the following invocation reports done and removes the buffer;
and every command is executed exactly once, in the original stack
(last-pushed-first) order. -/
theorem claim1_resumability (cs : List Command)
    (hall : ∀ c ∈ cs, skipShape c = true) (pm : ParsedMap) :
    (runDrains tiredHost (tiredMaps cs) pm 0 0 (cs.length / MIN_PAUSE)).maps
        = tiredMaps (cs.drop (MIN_PAUSE * (cs.length / MIN_PAUSE)))
    ∧ (runDrains tiredHost (tiredMaps cs) pm 0 0 (cs.length / MIN_PAUSE + 1)).results
        = List.replicate (cs.length / MIN_PAUSE) (Except.ok 1) ++ [Except.ok 0]
    ∧ (runDrains tiredHost (tiredMaps cs) pm 0 0 (cs.length / MIN_PAUSE + 1)).trace = cs
    ∧ (runDrains tiredHost (tiredMaps cs) pm 0 0 (cs.length / MIN_PAUSE + 1)).maps
        = [⟨[]⟩] :=
  tired_drains cs.length cs rfl hall pm

set_option maxRecDepth 100000 in
/-- Counterexample for C1 as stated: a buffer holding exactly N = K =
100 commands (so the claimed invocation count is N / K rounded up,
that is 1) still reports more work pending on its first invocation and
is still resident in the registry afterwards — with its command stack
already empty — and only the second invocation reports done and
removes it. -/
theorem claim1_resumability_cx :
    (runDrains tiredHost (tiredMaps cxCmds) pm0 0 0 1).results = [Except.ok 1]
    ∧ (runDrains tiredHost (tiredMaps cxCmds) pm0 0 0 1).maps = [⟨[(0, tiredBuf [])]⟩]
    ∧ (runDrains tiredHost (tiredMaps cxCmds) pm0 0 0 2).results
        = [Except.ok 1, Except.ok 0]
    ∧ (runDrains tiredHost (tiredMaps cxCmds) pm0 0 0 2).maps = [⟨[]⟩] :=
  ⟨rfl, rfl, rfl, rfl⟩

set_option maxRecDepth 100000 in
/-- Witness for C1 (amended) on a 150-command stack: 150 / 100 = 1
invocation leaves the buffer resident with the remaining 50 commands,
and the second invocation finishes, removes it, and the two traces
concatenate to the original stack. -/
theorem claim1_resumability_witness :
    (runDrains tiredHost (tiredMaps wCmds) pm0 0 0 (wCmds.length / MIN_PAUSE)).maps
        = tiredMaps (wCmds.drop (MIN_PAUSE * (wCmds.length / MIN_PAUSE)))
    ∧ (runDrains tiredHost (tiredMaps wCmds) pm0 0 0 (wCmds.length / MIN_PAUSE + 1)).results
        = List.replicate (wCmds.length / MIN_PAUSE) (Except.ok 1) ++ [Except.ok 0]
    ∧ (runDrains tiredHost (tiredMaps wCmds) pm0 0 0 (wCmds.length / MIN_PAUSE + 1)).trace
        = wCmds
    ∧ (runDrains tiredHost (tiredMaps wCmds) pm0 0 0 (wCmds.length / MIN_PAUSE + 1)).maps
        = [⟨[]⟩] :=
  claim1_resumability wCmds (by decide) pm0

end BapiDmm
